import Mathlib

/-!
# Verification of `rss_to_social.py`

A shallow embedding of the RSS-to-social republishing script, together with
theorems checking the natural-language specification against it.

Conventions of the embedding:
* `struct_time` publish instants become `Int` (any linearly ordered stand-in
  for absolute timestamps works; comparisons in the script are total-order
  comparisons on `struct_time` tuples).
* Python exceptions become `Except PyErr`; an uncaught exception is an
  `Except.error` value that propagates through binds exactly as an exception
  propagates through the call stack.
* External collaborators (PIL encoding, atproto, praw, requests) are oracles
  passed in as data: their observable outcomes (success, raised exception,
  produced payload) are parameters, while all control flow around them is
  translated from the script.
-/

namespace RssToSocial

/-- Publish instants (`struct_time` values in the script), modelled as `Int`. -/
abbrev Instant := Int

/-- Python exception classes that the script can raise or catch. -/
inductive PyErr where
  | attributeError
  | typeError
  | valueError
  | atProtocolError
  | prawError
  | requestsError
  deriving DecidableEq, Repr

/-- A feed entry as returned by `feedparser`: `published_parsed` may be
missing or unparseable (`none`). `ident` tags the entry's original position
so that identity is observable. -/
structure RawEntry where
  ident : Nat
  published : Option Instant
  deriving DecidableEq, Repr

/-- A feed entry whose publish instant is known to exist (past the point
where `e.published_parsed` has been accessed successfully). -/
structure Entry where
  ident : Nat
  ts : Instant
  deriving DecidableEq, Repr

/-! ## Sorting (line 313: `sorted(feed.entries, key=..., reverse=True)`)

Python's `sorted` with `reverse=True` is specified as a stable sort under the
reversed key comparison: the result is a permutation, non-strictly descending
in the key, and elements with equal keys keep their original relative order.
`insertDesc`/`sortDesc` realise exactly that specification. -/

/-- Insert an entry into a descending-sorted list, in front of the first
element whose key is `≤` its own (so an element inserted later — i.e. one
that came *earlier* in the original list — lands before equal keys). -/
def insertDesc (e : Entry) : List Entry → List Entry
  | [] => [e]
  | x :: xs => if x.ts ≤ e.ts then e :: x :: xs else x :: insertDesc e xs

/-- Stable sort by publish instant, descending: the embedding of
`sorted(entries, key=lambda e: e.published_parsed, reverse=True)`. -/
def sortDesc (es : List Entry) : List Entry :=
  es.foldr insertDesc []

/-! ## Novelty selection (lines 327–333) -/

/-- The selection condition of the `if` at lines 328–332:
`feed_url not in last_runs or n < force_latest or entry.published_parsed >
last_runs[feed_url]`. -/
def selCond (wm : Option Instant) (F : Nat) (n : Nat) (e : Entry) : Bool :=
  match wm with
  | none => true
  | some w => decide (n < F) || decide (w < e.ts)

/-- The `for n, entry in enumerate(sorted_entries)` loop starting at rank
`n`. -/
def selectNewAux (wm : Option Instant) (F : Nat) : Nat → List Entry → List Entry
  | _, [] => []
  | n, e :: es =>
    if selCond wm F n e then e :: selectNewAux wm F (n + 1) es
    else selectNewAux wm F (n + 1) es

/-- `new_entries` as built by the loop at lines 327–333. -/
def selectNew (wm : Option Instant) (F : Nat) (es : List Entry) : List Entry :=
  selectNewAux wm F 0 es

/-- The spec's selection rule, written from the spec's own words: the entry
at rank `n` is selected iff no watermark exists, or `n < F`, or its publish
instant is strictly greater than the watermark. -/
def SpecSelected (wm : Option Instant) (F : Nat) (n : Nat) (e : Entry) : Prop :=
  wm = none ∨ n < F ∨ ∃ w, wm = some w ∧ w < e.ts

instance (wm : Option Instant) (F n : Nat) (e : Entry) :
    Decidable (SpecSelected wm F n e) := by
  unfold SpecSelected
  cases wm with
  | none => exact isTrue (Or.inl rfl)
  | some w =>
    by_cases hF : n < F
    · exact isTrue (Or.inr (Or.inl hF))
    · by_cases hw : w < e.ts
      · exact isTrue (Or.inr (Or.inr ⟨w, rfl, hw⟩))
      · refine isFalse ?_
        rintro (h | h | ⟨w', hw', hlt⟩)
        · exact Option.noConfusion h
        · exact hF h
        · cases hw'
          exact hw hlt

/-! ## The run coordinator (`main`, lines 299–356)

`last_runs` is a Python dict from feed URL to instant; we embed it as an
association list with first-match lookup and in-place update (dict assignment
`last_runs[feed_url] = now` overwrites the existing key or appends).
The body of the per-entry fan-out (lines 338–348) is abstracted as a
`publish` function that can raise (each of its branches can); the concrete
fan-out is modelled separately as `dispatchPost` below. -/

/-- The in-memory watermark map (`last_runs`). -/
abbrev LastRuns := List (String × Instant)

/-- Dict lookup `last_runs[feed_url]` / membership `feed_url in last_runs`. -/
def getKey : LastRuns → String → Option Instant
  | [], _ => none
  | (k, v) :: rest, key => if k = key then some v else getKey rest key

/-- Dict assignment `last_runs[feed_url] = now`. -/
def setKey : LastRuns → String → Instant → LastRuns
  | [], key, now => [(key, now)]
  | (k, v) :: rest, key, now =>
    if k = key then (key, now) :: rest else (k, v) :: setKey rest key now

/-- A parsed feed: its URL and the entries `feedparser.parse` returned
(an unreachable or unparseable feed yields an empty entry list — feedparser
does not raise, it sets the `bozo` flag and returns no entries). -/
structure Feed where
  url : String
  entries : List RawEntry
  deriving Repr

/-- Accessing `e.published_parsed` on every entry (the sort key at line 315
and the comparison at line 331): an entry with a missing or unparseable
publish instant raises (`AttributeError` for a missing field; the embedding
uses one error for both defect shapes). -/
def parseEntries : List RawEntry → Except PyErr (List Entry)
  | [] => .ok []
  | r :: rs =>
    match r.published with
    | none => .error .attributeError
    | some t =>
      match parseEntries rs with
      | .error e => .error e
      | .ok es => .ok (⟨r.ident, t⟩ :: es)

/-- The `for entry in new_entries` loop body applied in order; an exception
from any entry's dispatch propagates (there is no handler in `main`). -/
def publishAll (publish : Entry → Except PyErr Unit) :
    List Entry → Except PyErr Unit
  | [] => .ok ()
  | e :: es =>
    match publish e with
    | .error err => .error err
    | .ok _ => publishAll publish es

/-- One iteration of the feed loop (lines 309–352): parse, sort, select,
dispatch each selected entry, and update the watermark to `now` only when at
least one entry was selected. -/
def processFeed (publish : Entry → Except PyErr Unit) (F : Nat) (now : Instant)
    (feed : Feed) (lr : LastRuns) : Except PyErr LastRuns :=
  match parseEntries feed.entries with
  | .error e => .error e
  | .ok es =>
    let newE := selectNew (getKey lr feed.url) F (sortDesc es)
    if newE.isEmpty then .ok lr
    else
      match publishAll publish newE with
      | .error e => .error e
      | .ok _ => .ok (setKey lr feed.url now)

/-- The feed loop of `main` (lines 309–352): `now` is captured once at line
307, before any feed is processed, and the same value is used for every
feed's watermark update. The result is the map passed to `store_last_runs`
at line 354; an error means an uncaught exception aborted the run before the
store was reached. -/
def mainRun (publish : Entry → Except PyErr Unit) (F : Nat) (now : Instant) :
    LastRuns → List Feed → Except PyErr LastRuns
  | lr, [] => .ok lr
  | lr, f :: fs =>
    match processFeed publish F now f lr with
    | .error e => .error e
    | .ok lr' => mainRun publish F now lr' fs

/-! ## Startup (lines 25–99 and 304–306) -/

/-- The environment variables the script reads at startup. -/
structure Env where
  lastRunsPath : Option String
  rssFeedUrls : Option (List String)
  activeSocials : Option (List String)

/-- The outcome of a whole invocation of `main`: `exitCode` is a `sys.exit`
during startup, `raised` an uncaught exception escaping the feed loop, and
`stored` the mapping written by `store_last_runs` — `none` means the store
file was never written. -/
structure MainResult where
  exitCode : Option Nat
  raised : Option PyErr
  stored : Option LastRuns
  deriving DecidableEq, Repr

/-- `main` end to end: `load_last_runs` (exit 1 when `LAST_RUNS_PATH` is
unset; a missing store file loads as the empty mapping), `load_feed_urls`
(exit 2 when `RSS_FEED_URLS` is unset), `load_active_socials` (exit 2 when
`ACTIVE_SOCIALS` is unset), then the feed loop, then `store_last_runs`.
`feedsOf` is the feedparser oracle giving each URL's entries. -/
def mainFull (env : Env) (file : Option LastRuns)
    (feedsOf : String → List RawEntry) (publish : Entry → Except PyErr Unit)
    (F : Nat) (now : Instant) : MainResult :=
  match env.lastRunsPath with
  | none => ⟨some 1, none, none⟩
  | some _ =>
    match env.rssFeedUrls with
    | none => ⟨some 2, none, none⟩
    | some urls =>
      match env.activeSocials with
      | none => ⟨some 2, none, none⟩
      | some _ =>
        match mainRun publish F now (file.getD [])
            (urls.map fun u => ⟨u, feedsOf u⟩) with
        | .error e => ⟨none, some e, none⟩
        | .ok final => ⟨none, none, some final⟩

/-- C7 counterexample to the claim as stated: a run over two feeds where the
first has one entry with a missing publish instant and the second is
healthy. The run raises instead of completing: the second feed's progress is
not persisted (`stored = none`), contradicting "every remaining feed is
still processed, and the run still completes and persists the watermark
progress made by the other feeds". -/
def pubOk : Entry → Except PyErr Unit := fun _ => .ok ()

/-- Feed whose single entry lacks a publish instant. -/
def feedBadEntries : List RawEntry := [⟨0, none⟩]

/-- Healthy feed entries. -/
def feedGoodEntries : List RawEntry := [⟨0, some 5⟩]

/-- feedparser oracle for the C7 counterexample run. -/
def feedsOfCex : String → List RawEntry := fun u =>
  if u = "a" then feedBadEntries else feedGoodEntries

/-- Fully-set environment for counterexample runs. -/
def envAll : Env := ⟨some "last_runs.json", some ["a", "b"], some ["discord"]⟩

/-! ## The watermark store file (`store_last_runs`, lines 51–67)

`store_last_runs` opens the store path with mode `"w"` — truncating whatever
was there — and then streams `json.dump` into it. We model file contents as a
token stream: the serialization of a mapping is an opening brace token, one
record token per key, and a closing brace token, written left to right. A
save that dies after `k` tokens leaves exactly the first `k` tokens of the
new serialization on disk (the prior contents are gone the moment the file
is opened for writing). -/

/-- A token of the JSON file written by `json.dump`. -/
inductive Tok where
  | openB : Tok
  | closeB : Tok
  | record : String → Instant → Tok
  deriving DecidableEq, Repr

/-- The serialized form of a watermark mapping. -/
def serialize (m : LastRuns) : List Tok :=
  Tok.openB :: (m.map fun kv => Tok.record kv.1 kv.2) ++ [Tok.closeB]

/-- `store_last_runs`: open-with-truncate then stream the serialization.
`crashAfter = none` is a completed save; `crashAfter = some k` is a save
that failed after `k` tokens reached the file. `prior` is the file's
previous contents, which mode `"w"` discards unconditionally. -/
def storeLastRuns (prior : List Tok) (m : LastRuns)
    (crashAfter : Option Nat) : List Tok :=
  match crashAfter with
  | none => serialize m
  | some k => (serialize m).take k

/-- Record-list tail of the JSON grammar: records then the closing brace. -/
def parseRecs : List Tok → Option LastRuns
  | [Tok.closeB] => some []
  | Tok.record k v :: rest =>
    match parseRecs rest with
    | none => none
    | some m => some ((k, v) :: m)
  | _ => none

/-- `json.load` on a token stream: succeeds only on a complete
serialization. -/
def jsonParse : List Tok → Option LastRuns
  | Tok.openB :: rest => parseRecs rest
  | _ => none

/-! ## The media resolver (`resize_image`, lines 115–146)

PIL is the external collaborator: a `PILImage` carries the source file's
height and raw bytes, and `encodeAt oh` is the payload produced by
`img.save(buffer, format=..., optimize=True)` after resizing to height `h`
when `oh = some h`, or with no resize when `oh = none` (the script re-encodes
even when it does not resize). Payload bytes are `List Nat`; `buffer.tell()`
is the list length. -/

/-- The source image together with PIL's encoding behavior on it. -/
structure PILImage where
  height : Nat
  origBytes : List Nat
  encodeAt : Option Nat → List Nat

/-- The resizing ladder of line 125. -/
def rungs : List Nat := [720, 480, 360]

/-- The `for max_height in 720, 480, 360` loop: at each rung the image is
downscaled only if its height exceeds the rung, then re-encoded; the first
payload at or under `maxBytes` is returned; exhausting the ladder raises
`ValueError` (line 146). -/
def resizeLoop (img : PILImage) (maxBytes : Nat) :
    List Nat → Except PyErr (List Nat)
  | [] => .error .valueError
  | h :: hs =>
    let out := if h < img.height then img.encodeAt (some h) else img.encodeAt none
    if out.length ≤ maxBytes then .ok out else resizeLoop img maxBytes hs

/-- `resize_image` with its default 1 MiB ceiling semantics. -/
def resizeImage (img : PILImage) (maxBytes : Nat) : Except PyErr (List Nat) :=
  resizeLoop img maxBytes rungs

/-! ## Destination publishers (lines 184–296)

Each platform SDK is an oracle recording which of its calls would raise.
`post_to_bluesky` wraps its body in `try/except AtProtocolError`; the other
two publishers have no handler at all. -/

/-- A normalized post (the `Post` dataclass); only the optional image matters
for control flow, the text fields are carried verbatim. -/
structure Post where
  title : String
  description : String
  link : Option String
  image : Option PILImage
  imageAlt : Option String

/-- Bluesky credentials from the environment. -/
structure BskyEnv where
  user : Option String
  passwd : Option String

/-- Outcomes of the atproto SDK calls inside the `try` block. -/
structure AtpOracle where
  loginOk : Bool
  uploadOk : Bool
  createOk : Bool
  blobPresent : Bool

/-- What a successful Bluesky post looked like. -/
structure BskyResult where
  posted : Bool
  withThumb : Bool
  deriving DecidableEq, Repr

/-- The body of the `try` at lines 199–232: login, optionally resize and
upload the image (`resize_image` can raise `ValueError` here, line 212),
then create the record. atproto failures raise `AtProtocolError`. -/
def bskyTryBody (o : AtpOracle) (img : Option PILImage) :
    Except PyErr BskyResult :=
  if o.loginOk = false then .error .atProtocolError
  else
    match img with
    | none =>
      if o.createOk then .ok ⟨true, false⟩ else .error .atProtocolError
    | some im =>
      match resizeImage im (1024 * 1024) with
      | .error e => .error e
      | .ok _ =>
        if o.uploadOk = false then .error .atProtocolError
        else if o.createOk then .ok ⟨true, o.blobPresent⟩
        else .error .atProtocolError

/-- `post_to_bluesky`: missing credentials return early (lines 189–197);
the `except AtProtocolError` handler at line 233 swallows exactly that
class — anything else the body raises keeps propagating. -/
def postToBluesky (env : BskyEnv) (o : AtpOracle) (img : Option PILImage) :
    Except PyErr (Option BskyResult) :=
  match env.user with
  | none => .ok none
  | some _ =>
    match env.passwd with
    | none => .ok none
    | some _ =>
      match bskyTryBody o img with
      | .error .atProtocolError => .ok none
      | .error e => .error e
      | .ok r => .ok (some r)

/-- Reddit credentials from the environment. -/
structure RedditEnv where
  clientId : Option String
  clientSecret : Option String
  username : Option String
  passwd : Option String
  subreddit : Option String

/-- Outcomes of the praw calls: constructing the client (line 270) and
submitting (line 279) can each raise. -/
structure RedditOracle where
  initRaises : Option PyErr
  submitRaises : Option PyErr

/-- `post_to_reddit`: missing credentials return early (lines 240–268), but
the praw calls at lines 270–279 have no exception handler — whatever they
raise escapes the publisher. -/
def postToReddit (env : RedditEnv) (o : RedditOracle) : Except PyErr Unit :=
  match env.clientId with
  | none => .ok ()
  | some _ =>
    match env.clientSecret with
    | none => .ok ()
    | some _ =>
      match env.username with
      | none => .ok ()
      | some _ =>
        match env.passwd with
        | none => .ok ()
        | some _ =>
          match env.subreddit with
          | none => .ok ()
          | some _ =>
            match o.initRaises with
            | some e => .error e
            | none =>
              match o.submitRaises with
              | some e => .error e
              | none => .ok ()

/-- Discord webhook configuration. -/
structure DiscordEnv where
  webhook : Option String

/-- Outcome of `requests.post` (line 292): it can raise a transport error;
otherwise the response's `ok` flag is inspected and merely logged. -/
structure DiscordOracle where
  postRaises : Option PyErr
  respOk : Bool

/-- `post_to_discord`: a missing webhook returns early; a raised transport
error escapes (no handler); a non-OK response is logged and swallowed. -/
def postToDiscord (env : DiscordEnv) (o : DiscordOracle) :
    Except PyErr Unit :=
  match env.webhook with
  | none => .ok ()
  | some _ =>
    match o.postRaises with
    | some e => .error e
    | none => .ok ()

/-- The trace of one entry's fan-out (lines 341–348): which publishers were
invoked, and the exception (if any) that escaped the loop body. -/
structure PubTrace where
  attempted : List String
  err : Option PyErr
  deriving DecidableEq, Repr

/-- Run one publisher step: skipped when inactive; once an exception has
escaped, no later step runs (control has left the fan-out). -/
def runStep (tr : PubTrace) (name : String) (act : Bool)
    (f : Unit → Except PyErr Unit) : PubTrace :=
  match tr.err with
  | some _ => tr
  | none =>
    if act then
      match f () with
      | .ok _ => ⟨tr.attempted ++ [name], none⟩
      | .error e => ⟨tr.attempted ++ [name], some e⟩
    else tr

/-- The fan-out of lines 341–348: Bluesky, then Reddit, then Discord, each
gated on membership in `ACTIVE_SOCIALS`. -/
def dispatchPost (active : List String) (benv : BskyEnv) (bo : AtpOracle)
    (renv : RedditEnv) (ro : RedditOracle) (denv : DiscordEnv)
    (dor : DiscordOracle) (post : Post) : PubTrace :=
  runStep
    (runStep
      (runStep ⟨[], none⟩ "bluesky" (active.contains "bluesky")
        (fun _ =>
          match postToBluesky benv bo post.image with
          | .ok _ => .ok ()
          | .error e => .error e))
      "reddit" (active.contains "reddit") (fun _ => postToReddit renv ro))
    "discord" (active.contains "discord") (fun _ => postToDiscord denv dor)

/-! ## Concrete fixtures for counterexamples and witnesses -/

/-- An image whose re-encoding exceeds the 1 MiB ceiling at every rung. -/
def imgBig : PILImage :=
  ⟨1000, List.replicate (1024 * 1024 + 1) 0,
    fun _ => List.replicate (1024 * 1024 + 1) 0⟩

/-- An image already under the ceiling and under every rung height, whose
re-encoding (`optimize=True`) shrinks the payload. -/
def imgSmall : PILImage := ⟨300, [0, 0, 0], fun _ => [0]⟩

/-- Bluesky credentials present. -/
def benvFull : BskyEnv := ⟨some "user", some "secret"⟩

/-- atproto calls all succeed. -/
def atpOk : AtpOracle := ⟨true, true, true, true⟩

/-- Reddit credentials present. -/
def renvFull : RedditEnv :=
  ⟨some "id", some "secret", some "user", some "secret", some "sub"⟩

/-- praw client constructs fine but `submit` raises an API error. -/
def roSubmitBoom : RedditOracle := ⟨none, some .prawError⟩

/-- Discord webhook present, `requests.post` succeeds. -/
def denvFull : DiscordEnv := ⟨some "hook"⟩

/-- Discord oracle: no raise, OK response. -/
def dorOk : DiscordOracle := ⟨none, true⟩

/-- A post carrying the oversized image. -/
def postBig : Post := ⟨"t", "d", some "l", some imgBig, some "t Thumbnail"⟩

/-- A post with no image. -/
def postPlain : Post := ⟨"t", "d", some "l", none, none⟩

/-- praw calls all succeed. -/
def roOk : RedditOracle := ⟨none, none⟩

/-- An image whose re-encoding reproduces its bytes exactly. -/
def imgId : PILImage := ⟨300, [1, 2], fun _ => [1, 2]⟩

/-- Prior store contents for the atomicity counterexample. -/
def priorToks : List Tok := serialize [("a", 1)]

/-! ## Theorems -/

theorem selCond_eq_specSelected (wm : Option Instant) (F n : Nat) (e : Entry) :
    selCond wm F n e = decide (SpecSelected wm F n e) := by
  cases wm with
  | none => simp [selCond, SpecSelected]
  | some w =>
    simp only [selCond, SpecSelected]
    by_cases hF : n < F <;> by_cases hw : w < e.ts <;> simp [hF, hw]

theorem selectNewAux_eq_filter (wm : Option Instant) (F : Nat) :
    ∀ (es : List Entry) (k : Nat),
      selectNewAux wm F k es =
        ((es.enumFrom k).filter
          (fun p => decide (SpecSelected wm F p.1 p.2))).map Prod.snd := by
  intro es
  induction es with
  | nil => intro k; rfl
  | cons e es ih =>
    intro k
    simp only [selectNewAux, List.enumFrom, List.filter, selCond_eq_specSelected]
    by_cases h : SpecSelected wm F k e
    · simp [h, ih (k + 1)]
    · simp [h, ih (k + 1)]

theorem selectNewAux_sublist (wm : Option Instant) (F : Nat) :
    ∀ (es : List Entry) (k : Nat), (selectNewAux wm F k es).Sublist es := by
  intro es
  induction es with
  | nil => intro k; exact List.Sublist.refl []
  | cons e es ih =>
    intro k
    simp only [selectNewAux]
    by_cases h : selCond wm F k e = true
    · simp only [h, if_true]
      exact (ih (k + 1)).cons₂ e
    · simp only [h, if_false]
      exact (ih (k + 1)).cons e

/-! ## Sorting lemmas -/

theorem insertDesc_perm (e : Entry) :
    ∀ l : List Entry, (insertDesc e l).Perm (e :: l) := by
  intro l
  induction l with
  | nil => exact List.Perm.refl _
  | cons x xs ih =>
    simp only [insertDesc]
    by_cases h : x.ts ≤ e.ts
    · simp [h]
    · simp only [h, if_false]
      exact (ih.cons x).trans (List.Perm.swap e x xs)

theorem sortDesc_perm (es : List Entry) : (sortDesc es).Perm es := by
  induction es with
  | nil => exact List.Perm.refl _
  | cons e es ih =>
    exact (insertDesc_perm e (sortDesc es)).trans (ih.cons e)

theorem insertDesc_pairwise (e : Entry) (l : List Entry)
    (hl : l.Pairwise (fun a b => b.ts ≤ a.ts)) :
    (insertDesc e l).Pairwise (fun a b => b.ts ≤ a.ts) := by
  induction l with
  | nil => simp [insertDesc]
  | cons x xs ih =>
    simp only [insertDesc]
    rcases List.pairwise_cons.mp hl with ⟨hx, hxs⟩
    by_cases h : x.ts ≤ e.ts
    · simp only [h, if_true]
      refine List.pairwise_cons.mpr ⟨?_, hl⟩
      intro b hb
      rcases List.mem_cons.mp hb with hb1 | hb1
      · simpa [hb1] using h
      · exact le_trans (hx b hb1) h
    · simp only [h, if_false]
      refine List.pairwise_cons.mpr ⟨?_, ih hxs⟩
      intro b hb
      have hmem : b ∈ e :: xs := (insertDesc_perm e xs).subset hb
      rcases List.mem_cons.mp hmem with hb1 | hb1
      · simpa [hb1] using le_of_not_le h
      · exact hx b hb1

theorem sortDesc_pairwise (es : List Entry) :
    (sortDesc es).Pairwise (fun a b => b.ts ≤ a.ts) := by
  induction es with
  | nil => simp [sortDesc]
  | cons e es ih =>
    exact insertDesc_pairwise e (sortDesc es) ih

theorem insertDesc_filter_ts (e : Entry) (t : Instant) :
    ∀ l : List Entry, l.Pairwise (fun a b => b.ts ≤ a.ts) →
      (insertDesc e l).filter (fun b => decide (b.ts = t)) =
        (e :: l).filter (fun b => decide (b.ts = t)) := by
  intro l
  induction l with
  | nil => intro _; rfl
  | cons x xs ih =>
    intro hl
    rcases List.pairwise_cons.mp hl with ⟨_, hxs⟩
    simp only [insertDesc]
    by_cases h : x.ts ≤ e.ts
    · simp [h]
    · simp only [h, if_false]
      have hne : ¬(x.ts = t ∧ e.ts = t) := by
        rintro ⟨hx', he'⟩
        exact h (le_of_eq (hx'.trans he'.symm))
      by_cases hxt : x.ts = t
      · have het : ¬ e.ts = t := fun he' => hne ⟨hxt, he'⟩
        simp [List.filter, hxt, het, ih hxs, List.filter_cons]
      · simp [List.filter, hxt, ih hxs, List.filter_cons]

theorem sortDesc_filter_ts (es : List Entry) (t : Instant) :
    (sortDesc es).filter (fun b => decide (b.ts = t)) =
      es.filter (fun b => decide (b.ts = t)) := by
  induction es with
  | nil => rfl
  | cons e es ih =>
    have h := insertDesc_filter_ts e t (sortDesc es) (sortDesc_pairwise es)
    calc (sortDesc (e :: es)).filter (fun b => decide (b.ts = t))
        = (e :: sortDesc es).filter (fun b => decide (b.ts = t)) := h
      _ = (e :: es).filter (fun b => decide (b.ts = t)) := by
          simp [List.filter_cons, ih]

/-! ## Claim theorems: C1 and C2 -/

/-- C1: walking the sorted entries by rank `n` starting at 0, the entry at
rank `n` is selected iff no watermark exists for the feed, or `n < F`, or
its publish instant is strictly greater than the watermark; the selected
entries are exactly that subset, in list order. `selectNew` is the loop of
lines 327–333; `SpecSelected` is the spec's rule verbatim. -/
theorem c1_selection_rule (wm : Option Instant) (F : Nat) (es : List Entry) :
    selectNew wm F es =
      ((es.enum.filter (fun p => decide (SpecSelected wm F p.1 p.2))).map
        Prod.snd) := by
  simpa [selectNew, List.enum] using selectNewAux_eq_filter wm F es 0

/-- C2: the sort used by the selection (line 313) produces a permutation of
the feed's entries, non-strictly descending in publish instant, and is
stable: entries with equal publish instants keep their original relative
order; moreover selection output stays descending-sorted. -/
theorem c2_sort_stable_desc (es : List Entry) :
    (sortDesc es).Perm es ∧
      (sortDesc es).Pairwise (fun a b => b.ts ≤ a.ts) ∧
      (∀ t : Instant,
        (sortDesc es).filter (fun b => decide (b.ts = t)) =
          es.filter (fun b => decide (b.ts = t))) ∧
      (∀ (wm : Option Instant) (F : Nat),
        (selectNew wm F (sortDesc es)).Pairwise (fun a b => b.ts ≤ a.ts)) := by
  refine ⟨sortDesc_perm es, sortDesc_pairwise es, sortDesc_filter_ts es, ?_⟩
  intro wm F
  exact List.Pairwise.sublist (selectNewAux_sublist wm F (sortDesc es) 0)
    (sortDesc_pairwise es)

/-! ## Watermark-map lemmas -/

theorem getKey_setKey (lr : LastRuns) (key : String) (now : Instant)
    (q : String) :
    getKey (setKey lr key now) q =
      if key = q then some now else getKey lr q := by
  induction lr with
  | nil => rfl
  | cons kv rest ih =>
    obtain ⟨k, v⟩ := kv
    simp only [setKey]
    by_cases hk : k = key
    · subst hk
      rw [if_pos rfl]
      by_cases hq : k = q <;> simp [getKey, hq]
    · rw [if_neg hk]
      by_cases hq : k = q
      · subst hq
        have hkey : ¬ key = k := fun h => hk h.symm
        simp [getKey, hkey, ih]
      · simp [getKey, hq, ih]

theorem processFeed_ok_cases (publish : Entry → Except PyErr Unit) (F : Nat)
    (now : Instant) (feed : Feed) (lr lr' : LastRuns)
    (h : processFeed publish F now feed lr = .ok lr') :
    lr' = lr ∨ lr' = setKey lr feed.url now := by
  unfold processFeed at h
  cases hp : parseEntries feed.entries with
  | error e => rw [hp] at h; exact absurd h (by simp)
  | ok es =>
    rw [hp] at h
    simp only at h
    by_cases hsel :
        (selectNew (getKey lr feed.url) F (sortDesc es)).isEmpty = true
    · rw [if_pos hsel] at h
      left
      exact (Except.ok.injEq _ _ ▸ h).symm
    · rw [if_neg hsel] at h
      cases hpub : publishAll publish
          (selectNew (getKey lr feed.url) F (sortDesc es)) with
      | error e => rw [hpub] at h; exact absurd h (by simp)
      | ok _ =>
        rw [hpub] at h
        right
        exact (Except.ok.injEq _ _ ▸ h).symm

theorem mainRun_mono (publish : Entry → Except PyErr Unit) (F : Nat)
    (now : Instant) :
    ∀ (feeds : List Feed) (lr final : LastRuns),
      mainRun publish F now lr feeds = .ok final →
      (∀ k v, getKey lr k = some v → v ≤ now) →
      ∀ k v, getKey lr k = some v →
        ∃ v', getKey final k = some v' ∧ v ≤ v' ∧ v' ≤ now := by
  intro feeds
  induction feeds with
  | nil =>
    intro lr final h hb k v hk
    have : lr = final := by
      simpa [mainRun] using h
    exact ⟨v, this ▸ hk, le_refl v, hb k v hk⟩
  | cons f fs ih =>
    intro lr final h hb k v hk
    unfold mainRun at h
    cases hpf : processFeed publish F now f lr with
    | error e => rw [hpf] at h; exact absurd h (by simp)
    | ok lr' =>
      rw [hpf] at h
      have hb' : ∀ k v, getKey lr' k = some v → v ≤ now := by
        intro k' v' hk'
        rcases processFeed_ok_cases publish F now f lr lr' hpf with hcase | hcase
        · exact hb k' v' (hcase ▸ hk')
        · rw [hcase, getKey_setKey] at hk'
          by_cases hq : f.url = k'
          · rw [if_pos hq] at hk'
            cases hk'
            exact le_refl now
          · rw [if_neg hq] at hk'
            exact hb k' v' hk'
      have hstep : ∃ v₁, getKey lr' k = some v₁ ∧ v ≤ v₁ ∧ v₁ ≤ now := by
        rcases processFeed_ok_cases publish F now f lr lr' hpf with hcase | hcase
        · exact ⟨v, hcase ▸ hk, le_refl v, hb k v hk⟩
        · by_cases hq : f.url = k
          · refine ⟨now, ?_, hb k v hk, le_refl now⟩
            rw [hcase, getKey_setKey, if_pos hq]
          · refine ⟨v, ?_, le_refl v, hb k v hk⟩
            rw [hcase, getKey_setKey, if_neg hq]
            exact hk
      rcases hstep with ⟨v₁, hk₁, hv₁, _⟩
      rcases ih lr' final h hb' k v₁ hk₁ with ⟨v', hk', hv', hbd⟩
      exact ⟨v', hk', le_trans hv₁ hv', hbd⟩

theorem parseEntries_error_of_missing (r : RawEntry) :
    ∀ rs : List RawEntry, r ∈ rs → r.published = none →
      parseEntries rs = .error .attributeError := by
  intro rs
  induction rs with
  | nil => intro h; exact absurd h (List.not_mem_nil r)
  | cons a as ih =>
    intro hmem hnone
    rcases List.mem_cons.mp hmem with hra | hra
    · subst hra
      simp [parseEntries, hnone]
    · cases ha : a.published with
      | none => simp [parseEntries, ha]
      | some t => simp [parseEntries, ha, ih hra hnone]

/-! ## Claim theorems: C3, C4, C7, C10 -/

/-- C3: per feed, zero selected entries leave the watermark map completely
unchanged (`processFeed` returns `lr` itself); at least one selected entry
means that, once every selected entry's dispatch returns, the feed's
watermark is set to `now` — the single run-start instant `mainRun` threads
unchanged through every feed (line 307) — not to any entry timestamp. -/
theorem c3_watermark_frame (publish : Entry → Except PyErr Unit) (F : Nat)
    (now : Instant) (feed : Feed) (lr : LastRuns) (es : List Entry)
    (hp : parseEntries feed.entries = .ok es) :
    (selectNew (getKey lr feed.url) F (sortDesc es) = [] →
      processFeed publish F now feed lr = .ok lr) ∧
    (selectNew (getKey lr feed.url) F (sortDesc es) ≠ [] →
      publishAll publish (selectNew (getKey lr feed.url) F (sortDesc es)) =
        .ok () →
      processFeed publish F now feed lr = .ok (setKey lr feed.url now) ∧
      getKey (setKey lr feed.url now) feed.url = some now) := by
  constructor
  · intro hsel
    simp [processFeed, hp, hsel]
  · intro hsel hpub
    refine ⟨?_, ?_⟩
    · have hne : (selectNew (getKey lr feed.url) F (sortDesc es)).isEmpty =
          false := by
        cases hc : selectNew (getKey lr feed.url) F (sortDesc es) with
        | nil => exact absurd hc hsel
        | cons a l => simp [List.isEmpty]
      simp [processFeed, hp, hne, hpub]
    · rw [getKey_setKey, if_pos rfl]

/-- C4: whenever a run completes and persists a mapping, every feed key of
the mapping loaded at start is still present, with a timestamp that did not
decrease — under the clock assumption that the run-start instant is not
earlier than any loaded watermark. -/
theorem c4_watermark_monotone (env : Env) (file : Option LastRuns)
    (feedsOf : String → List RawEntry) (publish : Entry → Except PyErr Unit)
    (F : Nat) (now : Instant) (final : LastRuns)
    (hclock : ∀ k v, getKey (file.getD []) k = some v → v ≤ now)
    (hs : (mainFull env file feedsOf publish F now).stored = some final) :
    ∀ k v, getKey (file.getD []) k = some v →
      ∃ v', getKey final k = some v' ∧ v ≤ v' := by
  intro k v hk
  obtain ⟨lp, ru, as⟩ := env
  cases lp with
  | none => simp [mainFull] at hs
  | some p =>
    cases ru with
    | none => simp [mainFull] at hs
    | some urls =>
      cases as with
      | none => simp [mainFull] at hs
      | some acts =>
        simp only [mainFull] at hs
        cases hrun : mainRun publish F now (file.getD [])
            (urls.map fun u => ⟨u, feedsOf u⟩) with
        | error e => rw [hrun] at hs; simp at hs
        | ok fin =>
          rw [hrun] at hs
          simp only [MainResult.mk.injEq] at hs
          have hfin : fin = final := by
            simpa using hs
          subst hfin
          rcases mainRun_mono publish F now
              (urls.map fun u => ⟨u, feedsOf u⟩) (file.getD []) fin hrun
              hclock k v hk with ⟨v', hk', hv', _⟩
          exact ⟨v', hk', hv'⟩

/-- C7: per-feed fetch failures (feedparser returns zero entries for an
unreachable or unparseable feed) are indeed skipped without touching the
map, and processing continues — but an entry lacking a publish instant
raises an uncaught `AttributeError` out of the sort, aborting the entire
run: no later feed is processed and nothing at all is persisted. This is
the amended form of the claim. -/
theorem c7_feed_error_isolation (publish : Entry → Except PyErr Unit)
    (F : Nat) (now : Instant) (lr : LastRuns) :
    (∀ url, processFeed publish F now ⟨url, []⟩ lr = .ok lr) ∧
    (∀ (feed : Feed) (r : RawEntry), r ∈ feed.entries → r.published = none →
      processFeed publish F now feed lr = .error .attributeError) ∧
    (∀ (feed : Feed) (fs : List Feed) (r : RawEntry), r ∈ feed.entries →
      r.published = none →
      mainRun publish F now lr (feed :: fs) = .error .attributeError) := by
  refine ⟨fun url => rfl, ?_, ?_⟩
  · intro feed r hmem hnone
    simp [processFeed, parseEntries_error_of_missing r feed.entries hmem hnone]
  · intro feed fs r hmem hnone
    have h := parseEntries_error_of_missing r feed.entries hmem hnone
    simp [mainRun, processFeed, h]

theorem c7_run_abort_cex :
    mainFull envAll (some []) feedsOfCex pubOk 0 10 =
      ⟨none, some .attributeError, none⟩ := by
  rfl

theorem c7_feed_error_isolation_witness :
    processFeed pubOk 0 10 ⟨"c", []⟩ [("c", 3)] = .ok [("c", 3)] ∧
      mainRun pubOk 0 10 [] [⟨"a", feedBadEntries⟩, ⟨"b", feedGoodEntries⟩] =
        .error .attributeError :=
  ⟨(c7_feed_error_isolation pubOk 0 10 [("c", 3)]).1 "c",
    (c7_feed_error_isolation pubOk 0 10 []).2.2 ⟨"a", feedBadEntries⟩
      [⟨"b", feedGoodEntries⟩] ⟨0, none⟩ (by simp [feedBadEntries]) rfl⟩

/-- C10: with the watermark-store location and the feed list configured but
`ACTIVE_SOCIALS` unset, `main` exits with code 2 before consulting any feed
and before writing any state (the outcome does not even depend on the feed
oracle or the publishers); a missing feed list gives the same exit code 2,
and a missing store location gives the distinct exit code 1. -/
theorem c10_active_socials_exit (env : Env) (file : Option LastRuns)
    (feedsOf : String → List RawEntry) (publish : Entry → Except PyErr Unit)
    (F : Nat) (now : Instant) (p : String) (us : List String)
    (h1 : env.lastRunsPath = some p) (h2 : env.rssFeedUrls = some us)
    (h3 : env.activeSocials = none) :
    mainFull env file feedsOf publish F now = ⟨some 2, none, none⟩ ∧
    (∀ (feedsOf' : String → List RawEntry)
        (publish' : Entry → Except PyErr Unit),
      mainFull env file feedsOf' publish' F now = ⟨some 2, none, none⟩) ∧
    (∀ env' : Env, env'.lastRunsPath = some p → env'.rssFeedUrls = none →
      mainFull env' file feedsOf publish F now = ⟨some 2, none, none⟩) ∧
    (∀ env' : Env, env'.lastRunsPath = none →
      mainFull env' file feedsOf publish F now = ⟨some 1, none, none⟩) := by
  refine ⟨?_, ?_, ?_, ?_⟩
  · simp [mainFull, h1, h2, h3]
  · intro feedsOf' publish'
    simp [mainFull, h1, h2, h3]
  · intro env' h1' h2'
    simp [mainFull, h1', h2']
  · intro env' h1'
    simp [mainFull, h1']

theorem c10_active_socials_exit_witness :
    mainFull ⟨some "last_runs.json", some ["a"], none⟩ none feedsOfCex pubOk
        0 0 = ⟨some 2, none, none⟩ :=
  (c10_active_socials_exit ⟨some "last_runs.json", some ["a"], none⟩ none
    feedsOfCex pubOk 0 0 "last_runs.json" ["a"] rfl rfl rfl).1

/-- C3 witness: a feed with a single fresh entry over an empty map gets its
watermark set to the run-start instant 5. -/
theorem c3_watermark_frame_witness :
    processFeed pubOk 0 5 ⟨"a", feedGoodEntries⟩ [] = .ok [("a", 5)] ∧
      getKey [("a", 5)] "a" = some 5 :=
  (c3_watermark_frame pubOk 0 5 ⟨"a", feedGoodEntries⟩ [] [⟨0, 5⟩] rfl).2
    (by decide) rfl

/-- C4 witness: loading `[("a", 3)]`, a run at start instant 5 over feed "a"
with one entry at instant 10 persists `[("a", 5)]`, and 3 ≤ 5. -/
theorem c4_watermark_monotone_witness :
    ∃ v', getKey [("a", 5)] "a" = some v' ∧ (3 : Instant) ≤ v' :=
  c4_watermark_monotone ⟨some "p", some ["a"], some []⟩ (some [("a", 3)])
    (fun _ => [⟨0, some 10⟩]) pubOk 0 5 [("a", 5)]
    (by
      intro k v hk
      simp only [getKey] at hk
      by_cases hq : "a" = k
      · rw [if_pos hq] at hk
        injection hk with h
        rw [← h]
        decide
      · rw [if_neg hq] at hk
        simp at hk)
    rfl "a" 3 (by simp [getKey])

/-! ## Store lemmas and C8 -/

theorem take_append_le {α : Type} :
    ∀ (l1 l2 : List α) (k : Nat), k ≤ l1.length →
      (l1 ++ l2).take k = l1.take k := by
  intro l1
  induction l1 with
  | nil =>
    intro l2 k hk
    have hz : k = 0 := Nat.le_zero.mp hk
    subst hz
    rfl
  | cons a l ih =>
    intro l2 k hk
    cases k with
    | zero => rfl
    | succ k' =>
      rw [List.cons_append, List.take_succ_cons, List.take_succ_cons,
        ih l2 k' (Nat.succ_le_succ_iff.mp hk)]

theorem parseRecs_no_close :
    ∀ l : List Tok, (∀ x ∈ l, ∃ k v, x = Tok.record k v) →
      parseRecs l = none := by
  intro l
  induction l with
  | nil => intro _; rfl
  | cons a rest ih =>
    intro h
    rcases h a (List.mem_cons_self a rest) with ⟨k, v, hkv⟩
    subst hkv
    have hrest := ih fun x hx => h x (List.mem_cons_of_mem _ hx)
    simp [parseRecs, hrest]

theorem parseRecs_serialize :
    ∀ m : LastRuns,
      parseRecs ((m.map fun kv => Tok.record kv.1 kv.2) ++ [Tok.closeB]) =
        some m := by
  intro m
  induction m with
  | nil => rfl
  | cons kv rest ih => simp [parseRecs, ih]

/-- C8 amended: the save truncates the store file in place and streams the
new serialization into it. A completed save writes exactly the new mapping
(and loads back as it), but a save failing after `k` tokens leaves the first
`k` tokens of the new serialization — an unparseable partial file, neither
the prior contents nor the full mapping. -/
theorem c8_store_truncates_in_place (prior : List Tok) (m : LastRuns)
    (k : Nat) (hk : k < (serialize m).length) :
    storeLastRuns prior m (some k) = (serialize m).take k ∧
    jsonParse (storeLastRuns prior m (some k)) = none ∧
    storeLastRuns prior m none = serialize m ∧
    jsonParse (serialize m) = some m := by
  refine ⟨rfl, ?_, rfl, ?_⟩
  · show jsonParse ((serialize m).take k) = none
    cases k with
    | zero => rfl
    | succ k' =>
      have hlen : k' ≤ m.length := by
        simp [serialize] at hk
        omega
      show jsonParse
        ((Tok.openB :: ((m.map fun kv => Tok.record kv.1 kv.2) ++
          [Tok.closeB])).take (k' + 1)) = none
      rw [List.take_succ_cons]
      show parseRecs
        (((m.map fun kv => Tok.record kv.1 kv.2) ++ [Tok.closeB]).take k') =
        none
      rw [take_append_le _ _ k' (by simpa using hlen)]
      apply parseRecs_no_close
      intro x hx
      have hx' : x ∈ m.map fun kv => Tok.record kv.1 kv.2 :=
        List.take_subset k' _ hx
      rcases List.mem_map.mp hx' with ⟨kv, _, hkv⟩
      exact ⟨kv.1, kv.2, hkv.symm⟩
  · show jsonParse (serialize m) = some m
    simp [jsonParse, serialize, parseRecs_serialize m]

/-- C8 counterexample to the claim as stated: with prior contents holding
`a ↦ 1` and a save of `a ↦ 2` failing before any token is written, the store
holds neither the full updated mapping nor the prior contents (the file is
empty — `open(path, "w")` already truncated it). -/
theorem c8_store_atomic_cex :
    ¬(storeLastRuns priorToks [("a", 2)] (some 0) = serialize [("a", 2)] ∨
      storeLastRuns priorToks [("a", 2)] (some 0) = priorToks) := by
  decide

theorem c8_store_truncates_in_place_witness :
    storeLastRuns priorToks [("a", 2)] (some 1) =
        (serialize [("a", 2)]).take 1 ∧
      jsonParse (storeLastRuns priorToks [("a", 2)] (some 1)) = none ∧
      storeLastRuns priorToks [("a", 2)] none = serialize [("a", 2)] ∧
      jsonParse (serialize [("a", 2)]) = some [("a", 2)] :=
  c8_store_truncates_in_place priorToks [("a", 2)] 1 (by decide)

/-! ## Media-resolver lemmas, C9 and C5 -/

theorem resizeLoop_all_over (img : PILImage) (maxBytes : Nat)
    (hbig : ∀ oh, maxBytes < (img.encodeAt oh).length) :
    ∀ hs : List Nat, resizeLoop img maxBytes hs = .error .valueError := by
  intro hs
  induction hs with
  | nil => rfl
  | cons h rest ih =>
    simp only [resizeLoop]
    by_cases hh : h < img.height
    · rw [if_pos hh, if_neg (Nat.not_le.mpr (hbig (some h)))]
      exact ih
    · rw [if_neg hh, if_neg (Nat.not_le.mpr (hbig none))]
      exact ih

/-- C9 amended: when the image is within the first rung height (no
downscaling happens) and its *re-encoding* fits the ceiling, `resize_image`
returns the re-encoded payload at original dimensions — which equals the
original bytes only when PIL's re-encoding (`optimize=True`) happens to
reproduce them. The function never skips re-encoding, so payload identity
(and hence idempotence on the exact bytes) is not guaranteed in general. -/
theorem c9_resolver_reencodes (img : PILImage) (maxBytes : Nat)
    (h7 : img.height ≤ 720)
    (hfit : (img.encodeAt none).length ≤ maxBytes) :
    resizeImage img maxBytes = .ok (img.encodeAt none) ∧
    (img.encodeAt none = img.origBytes →
      resizeImage img maxBytes = .ok img.origBytes) := by
  have hmain : resizeImage img maxBytes = .ok (img.encodeAt none) := by
    simp only [resizeImage, rungs, resizeLoop]
    rw [if_neg (Nat.not_lt.mpr h7), if_pos hfit]
  exact ⟨hmain, fun he => he ▸ hmain⟩

theorem c9_resolver_reencodes_witness :
    resizeImage imgId 5 = .ok imgId.origBytes :=
  (c9_resolver_reencodes imgId 5 (by decide) (by decide)).2 rfl

/-- C9 counterexample to the claim as stated: `imgSmall` is 3 bytes on disk
(far under the 1 MiB ceiling) and 300 px tall (no rung forces a resize), yet
`resize_image` returns the 1-byte re-encoded payload, not the original
payload unchanged — the code re-encodes (`img.save(..., optimize=True)`)
even when no resizing is needed, instead of skipping to returning the
source. -/
theorem c9_resolver_identity_cex :
    imgSmall.origBytes.length ≤ 1024 * 1024 ∧
      imgSmall.height ≤ 360 ∧
      resizeImage imgSmall (1024 * 1024) = .ok [0] ∧
      ¬ resizeImage imgSmall (1024 * 1024) = .ok imgSmall.origBytes := by
  refine ⟨by decide, by decide, rfl, ?_⟩
  intro h
  rw [show resizeImage imgSmall (1024 * 1024) = .ok [0] from rfl] at h
  injection h with h'
  exact absurd h' (by decide)

theorem postToBluesky_leaks_valueError (env : BskyEnv) (o : AtpOracle)
    (im : PILImage) (u p : String) (hu : env.user = some u)
    (hp : env.passwd = some p) (hl : o.loginOk = true)
    (hbig : ∀ oh, 1024 * 1024 < (im.encodeAt oh).length) :
    postToBluesky env o (some im) = .error .valueError := by
  have hres : resizeImage im (1024 * 1024) = .error .valueError :=
    resizeLoop_all_over im (1024 * 1024) hbig rungs
  simp [postToBluesky, hu, hp, bskyTryBody, hl, hres]

theorem dispatchPost_bluesky_error_stops (benv : BskyEnv) (bo : AtpOracle)
    (renv : RedditEnv) (ro : RedditOracle) (denv : DiscordEnv)
    (dor : DiscordOracle) (post : Post) (im : PILImage) (e : PyErr)
    (hpost : post.image = some im)
    (hmain : postToBluesky benv bo (some im) = .error e) :
    dispatchPost ["bluesky", "discord"] benv bo renv ro denv dor post =
      ⟨["bluesky"], some e⟩ := by
  simp [dispatchPost, runStep, hpost, hmain]

/-- C5 amended: when every rung's re-encoding exceeds the 1 MiB ceiling,
`resize_image` raises `ValueError`; the Bluesky publisher's handler catches
only `AtProtocolError`, so the error propagates past the publisher boundary,
and past the entry fan-out — remaining destinations for that entry are never
attempted — instead of the image being suppressed. -/
theorem c5_image_too_large_propagates (env : BskyEnv) (o : AtpOracle)
    (im : PILImage) (u p : String) (hu : env.user = some u)
    (hp : env.passwd = some p) (hl : o.loginOk = true)
    (hbig : ∀ oh, 1024 * 1024 < (im.encodeAt oh).length) :
    postToBluesky env o (some im) = .error .valueError ∧
    (∀ (renv : RedditEnv) (ro : RedditOracle) (denv : DiscordEnv)
        (dor : DiscordOracle) (post : Post), post.image = some im →
      dispatchPost ["bluesky", "discord"] env o renv ro denv dor post =
        ⟨["bluesky"], some .valueError⟩) := by
  have hmain : postToBluesky env o (some im) = .error .valueError :=
    postToBluesky_leaks_valueError env o im u p hu hp hl hbig
  refine ⟨hmain, ?_⟩
  intro renv ro denv dor post hpost
  exact dispatchPost_bluesky_error_stops env o renv ro denv dor post im
    .valueError hpost hmain

theorem c5_image_too_large_propagates_witness :
    postToBluesky benvFull atpOk (some imgBig) = .error .valueError :=
  (c5_image_too_large_propagates benvFull atpOk imgBig "user" "secret" rfl
    rfl rfl (by
      intro oh
      have henc : imgBig.encodeAt oh = List.replicate (1024 * 1024 + 1) 0 :=
        rfl
      rw [henc, List.length_replicate]
      omega)).1

/-- C5 counterexample to the claim as stated: with credentials present and
every atproto call succeeding, a post whose image exceeds the ceiling at
every rung makes `post_to_bluesky` raise `ValueError` out of its boundary,
and the entry's fan-out stops — Discord, though active, is never attempted.
The claim said the publish attempt proceeds with the image suppressed. -/
theorem c5_image_too_large_cex :
    postToBluesky benvFull atpOk (some imgBig) = .error .valueError ∧
      dispatchPost ["bluesky", "discord"] benvFull atpOk renvFull roOk
        denvFull dorOk postBig = ⟨["bluesky"], some .valueError⟩ := by
  have hbig : ∀ oh, 1024 * 1024 < (imgBig.encodeAt oh).length := by
    intro oh
    have henc : imgBig.encodeAt oh = List.replicate (1024 * 1024 + 1) 0 := rfl
    rw [henc, List.length_replicate]
    omega
  have hmain : postToBluesky benvFull atpOk (some imgBig) =
      .error .valueError :=
    postToBluesky_leaks_valueError benvFull atpOk imgBig "user" "secret" rfl
      rfl rfl hbig
  exact ⟨hmain,
    dispatchPost_bluesky_error_stops benvFull atpOk renvFull roOk denvFull
      dorOk postBig imgBig .valueError rfl hmain⟩

/-! ## Publisher isolation: C6 -/

/-- C6 amended: only the Bluesky publisher respects the never-raise
contract for platform errors (its handler swallows every `AtProtocolError`,
though `ValueError` still leaks); the Reddit and Discord publishers have no
handler at all, so a praw or transport error escapes the publisher boundary
and aborts the rest of the entry's fan-out — an active later destination is
never attempted. Missing credentials are handled by early returns in all
three. -/
theorem c6_publisher_isolation :
    (∀ (env : BskyEnv) (o : AtpOracle) (img : Option PILImage),
      postToBluesky env o img ≠ .error .atProtocolError) ∧
    (∀ (c1 c2 u pw sr : String) (ro : RedditOracle) (e : PyErr),
      ro.initRaises = none → ro.submitRaises = some e →
      postToReddit ⟨some c1, some c2, some u, some pw, some sr⟩ ro =
        .error e) ∧
    (∀ (benv : BskyEnv) (bo : AtpOracle) (denv : DiscordEnv)
        (dor : DiscordOracle) (post : Post) (c1 c2 u pw sr : String)
        (ro : RedditOracle) (e : PyErr),
      ro.initRaises = none → ro.submitRaises = some e →
      dispatchPost ["reddit", "discord"] benv bo
          ⟨some c1, some c2, some u, some pw, some sr⟩ ro denv dor post =
        ⟨["reddit"], some e⟩) ∧
    (∀ (w : String) (dor : DiscordOracle) (e : PyErr),
      dor.postRaises = some e → postToDiscord ⟨some w⟩ dor = .error e) := by
  have hreddit : ∀ (c1 c2 u pw sr : String) (ro : RedditOracle) (e : PyErr),
      ro.initRaises = none → ro.submitRaises = some e →
      postToReddit ⟨some c1, some c2, some u, some pw, some sr⟩ ro =
        .error e := by
    intro c1 c2 u pw sr ro e hi hsub
    simp [postToReddit, hi, hsub]
  refine ⟨?_, hreddit, ?_, ?_⟩
  · intro env o img
    unfold postToBluesky
    cases env.user with
    | none => simp
    | some _ =>
      cases env.passwd with
      | none => simp
      | some _ =>
        cases hb : bskyTryBody o img with
        | ok r => simp
        | error e => cases e <;> simp
  · intro benv bo denv dor post c1 c2 u pw sr ro e hi hsub
    simp [dispatchPost, runStep, hreddit c1 c2 u pw sr ro e hi hsub]
  · intro w dor e hpost
    simp [postToDiscord, hpost]

theorem c6_publisher_isolation_witness :
    postToReddit renvFull roSubmitBoom = .error .prawError ∧
      postToDiscord denvFull ⟨some .requestsError, true⟩ =
        .error .requestsError :=
  ⟨c6_publisher_isolation.2.1 "id" "secret" "user" "secret" "sub"
      roSubmitBoom .prawError rfl rfl,
    c6_publisher_isolation.2.2.2 "hook" ⟨some .requestsError, true⟩
      .requestsError rfl⟩

/-- C6 counterexample to the claim as stated: Reddit credentials are all
present, `praw` constructs its client, but `submit` raises an API error.
`post_to_reddit` has no handler, so the error escapes the publisher
boundary, and Discord — active and next in line for the same entry — is
never attempted. -/
theorem c6_publisher_isolation_cex :
    postToReddit renvFull roSubmitBoom = .error .prawError ∧
      dispatchPost ["reddit", "discord"] benvFull atpOk renvFull
        roSubmitBoom denvFull dorOk postPlain =
        ⟨["reddit"], some .prawError⟩ := by
  constructor
  · rfl
  · rfl

end RssToSocial
